import Mathlib

/-!
Verification of the Credit Payment-Schedule Generation and Historical-Rate
Interest Recalculation Engine.

The embedding follows the Python source:
* `src/backend/app/models/cbr_key_rate.py` (rate store queries),
* `src/backend/app/services/cbr_service.py` (rate upsert, point/range queries,
  time-weighted average),
* `src/backend/app/models/payment_schedule.py` (interest math, recalculation),
* `src/backend/app/routers/credits.py` (schedule generation, default base rate,
  recalculation batch loop).

Datetimes in the rate-store/recalculation subsystem are modelled as integers
(days since an arbitrary epoch): the source only compares them and takes
`(a - b).days` differences, both exact on midnight datetimes.  Rates and money
amounts (Python floats) are modelled as rationals.  The database table of
`CBRKeyRate` rows is modelled as a list; an SQL `order_by` is modelled with
`List.insertionSort` and `.first()` with `List.head?`.
-/

/-- One row of the `cbr_key_rates` table (`cbr_key_rate.py`): `date` is the
announcement date, `effective_date` the date the rate takes effect, `rate` the
key-rate percentage.  Surrogate id and audit timestamps are not modelled. -/
structure CBRKeyRate where
  date : ℤ
  effective_date : ℤ
  rate : ℚ
deriving DecidableEq, Repr

/-- Ascending `order_by(effective_date)` ordering used by the range query. -/
def effLe (a b : CBRKeyRate) : Prop := a.effective_date ≤ b.effective_date

/-- Descending `order_by(effective_date.desc())` ordering used by
`get_latest_rate` and `get_rate_on_date`. -/
def effGe (a b : CBRKeyRate) : Prop := b.effective_date ≤ a.effective_date

instance : DecidableRel effLe := fun a b =>
  inferInstanceAs (Decidable (a.effective_date ≤ b.effective_date))

instance : DecidableRel effGe := fun a b =>
  inferInstanceAs (Decidable (b.effective_date ≤ a.effective_date))

instance : IsTotal CBRKeyRate effLe :=
  ⟨fun a b => Int.le_total a.effective_date b.effective_date⟩

instance : IsTrans CBRKeyRate effLe :=
  ⟨fun _ _ _ hab hbc => le_trans hab hbc⟩

instance : IsTotal CBRKeyRate effGe :=
  ⟨fun a b => Int.le_total b.effective_date a.effective_date⟩

instance : IsTrans CBRKeyRate effGe :=
  ⟨fun _ _ _ hab hbc => le_trans hbc hab⟩

/-- `CBRKeyRate.get_latest_rate` (`cbr_key_rate.py:24-26`): most recent rate
by effective date (`order_by desc`, `first()`). -/
def get_latest_rate (s : List CBRKeyRate) : Option CBRKeyRate :=
  (List.insertionSort effGe s).head?

/-- `CBRKeyRate.get_rate_on_date` (`cbr_key_rate.py:28-32`): the row with the
greatest `effective_date ≤ target_date`, if any. -/
def get_rate_on_date (s : List CBRKeyRate) (target_date : ℤ) : Option CBRKeyRate :=
  (List.insertionSort effGe
    (s.filter (fun p => decide (p.effective_date ≤ target_date)))).head?

/-- `CBRService.get_current_key_rate` (`cbr_service.py:361-370`). -/
def get_current_key_rate (s : List CBRKeyRate) : Option ℚ :=
  (get_latest_rate s).map (fun r => r.rate)

/-- `CBRService.get_key_rate_on_date` (`cbr_service.py:652-663`). -/
def get_key_rate_on_date (s : List CBRKeyRate) (target_date : ℤ) : Option ℚ :=
  (get_rate_on_date s target_date).map (fun r => r.rate)

/-- The `for i, rate in enumerate(rates)` accumulation loop of
`CBRService.get_average_key_rate_for_period` (`cbr_service.py:694-708`):
walks the in-range rows in ascending effective order, accumulating
`rate * days_effective` and the day total for sub-intervals of positive
length.  `rates[i+1]` is the head of the remaining list. -/
def avgLoop (start_date end_date : ℤ) :
    List CBRKeyRate → ℚ → ℤ → ℚ × ℤ
  | [], weighted_sum, total_weight => (weighted_sum, total_weight)
  | r :: rest, weighted_sum, total_weight =>
    let rate_start := max r.effective_date start_date
    let rate_end :=
      match rest with
      | r2 :: _ => min r2.effective_date end_date
      | [] => end_date
    let days_effective := rate_end - rate_start
    if 0 < days_effective then
      avgLoop start_date end_date rest
        (weighted_sum + r.rate * (days_effective : ℚ)) (total_weight + days_effective)
    else
      avgLoop start_date end_date rest weighted_sum total_weight

/-- `CBRService.get_average_key_rate_for_period` (`cbr_service.py:665-725`):
time-weighted average of the key rate over `[start_date, end_date]`.
Collects rows with `effective_date` inside the window (ascending); empty
collection falls back to the rate in force at `start_date`; a zero-length
window returns the first collected row's rate; otherwise weights each row's
rate by the days it was in force, adds the pre-window gap contribution via
`get_rate_on_date start_date` when the first collected row starts after the
window, and divides; a zero day total yields `none`. -/
def get_average_key_rate_for_period (s : List CBRKeyRate)
    (start_date end_date : ℤ) : Option ℚ :=
  let rates := List.insertionSort effLe
    (s.filter (fun p =>
      decide (start_date ≤ p.effective_date ∧ p.effective_date ≤ end_date)))
  if rates.isEmpty then
    (get_rate_on_date s start_date).map (fun r => r.rate)
  else
    let total_days := end_date - start_date
    if total_days = 0 then
      rates.head?.map (fun r => r.rate)
    else
      let acc := avgLoop start_date end_date rates 0 0
      let acc2 :=
        match rates.head? with
        | some r0 =>
          if start_date < r0.effective_date then
            match get_rate_on_date s start_date with
            | some pre_period_rate =>
              let days_before := r0.effective_date - start_date
              (acc.1 + pre_period_rate.rate * (days_before : ℚ), acc.2 + days_before)
            | none => acc
          else acc
        | none => acc
      if acc2.2 = 0 then none
      else some (acc2.1 / ((acc2.2 : ℤ) : ℚ))

/-- One iteration of the upsert loop in `CBRService.update_key_rates`
(`cbr_service.py:333-354`): the first existing row with the same announcement
`date` has its `rate` and `effective_date` overwritten in place; otherwise the
new row is added. -/
def upsertOne : List CBRKeyRate → CBRKeyRate → List CBRKeyRate
  | [], rate_data => [rate_data]
  | p :: ps, rate_data =>
    if p.date = rate_data.date then
      { p with rate := rate_data.rate, effective_date := rate_data.effective_date } :: ps
    else
      p :: upsertOne ps rate_data

/-- The upsert loop of `CBRService.update_key_rates` (`cbr_service.py:332-359`)
over an already-fetched list of rows, returning the new store and
`updated_count`.  The network fetch cascade that produces `key_rates` (and its
guard that raises when all fetches fail) is the out-of-scope rate-ingestion
collaborator of spec section 5. -/
def update_key_rates (s : List CBRKeyRate) (key_rates : List CBRKeyRate) :
    List CBRKeyRate × ℕ :=
  key_rates.foldl (fun acc rate_data => (upsertOne acc.1 rate_data, acc.2 + 1)) (s, 0)

/-- `get_base_rate_value` (`credits.py:35-62`): generation-time base-rate
lookup.  Total, with hard-coded defaults: KEY_RATE falls back to 16.0 when the
store has no current rate, LIBOR and SOFR are stubbed at 5.0 and 4.5, any other
indicator gets 16.0.  (The `except` clause catching database errors is not
reachable in this model.) -/
def get_base_rate_value (base_rate_indicator : String) (s : List CBRKeyRate) : ℚ :=
  if base_rate_indicator = "KEY_RATE" then
    match get_current_key_rate s with
    | some current_rate => current_rate
    | none => 16
  else if base_rate_indicator = "LIBOR" then 5
  else if base_rate_indicator = "SOFR" then 4.5
  else 16

/-- Spec-side definition, following the spec's words (sections 4.2 and
glossary): the duration-weighted average of the piecewise-constant rate in
force across `[a, b]` is the day-by-day sum of the rate in force (the rate of
the point with the greatest `effective_date` at most that day, i.e.
`rate_on`), divided by the number of days.  Used only to compare the
implementation's `get_average_key_rate_for_period` against the spec. -/
def specTimeWeightedAverage (s : List CBRKeyRate) (a b : ℤ) : ℚ :=
  (∑ d in Finset.Ico a b, ((get_key_rate_on_date s d).getD 0)) / (((b - a : ℤ) : ℚ))

/-- `PaymentSchedule.calculate_interest_amount` (`payment_schedule.py:79-82`):
simple interest at an annual percentage `rate` over `days` with the fixed
365-day convention. -/
def calculate_interest_amount (principal : ℚ) (rate : ℚ) (days : ℤ) : ℚ :=
  principal * (rate / 100) * ((days : ℚ) / 365)

/-- Python truthiness of a nullable integer column: `None` and `0` are falsy. -/
def truthyInt : Option ℤ → Bool
  | none => false
  | some n => decide (n ≠ 0)

/-- Python truthiness of a nullable float column: `None` and `0.0` are falsy. -/
def truthyRat : Option ℚ → Bool
  | none => false
  | some q => decide (q ≠ 0)

/-- One row of the `payment_schedules` table (`payment_schedule.py:13-48`).
Nullable columns are `Option`-valued; `period_start_date`, `period_end_date`,
`payment_date`, `principal_amount` and `period_number` are `nullable=False`
in the schema but the dates are still `Option` here because the recalculation
method guards against unset attributes.  Surrogate id, credit id, notes and
audit timestamps are not modelled. -/
structure SchedPeriod where
  period_start_date : Option ℤ
  period_end_date : Option ℤ
  payment_date : Option ℤ
  principal_amount : ℚ
  interest_amount : Option ℚ
  total_payment : Option ℚ
  period_days : Option ℤ
  period_number : ℕ
  interest_rate : Option ℚ
  base_rate : Option ℚ
  spread : Option ℚ
deriving DecidableEq, Repr

/-- The common tail of `PaymentSchedule.recalculate_with_historical_rates`
(`payment_schedule.py:152-163`): after `base_rate`/`interest_rate` have been
set, re-derive `interest_amount` and `total_payment` from the (unchanged)
`principal_amount` and `period_days`, guarded by Python truthiness of both.
When the guard passes, `interest_rate` has just been assigned, so the `none`
branch of the inner match is unreachable. -/
def recalcFinish (p : SchedPeriod) : SchedPeriod :=
  if p.principal_amount ≠ 0 ∧ truthyInt p.period_days then
    match p.period_days, p.interest_rate with
    | some d, some ir =>
      let ia := calculate_interest_amount p.principal_amount ir d
      { p with interest_amount := some ia, total_payment := some ia }
    | _, _ => p
  else p

/-- `PaymentSchedule.recalculate_with_historical_rates`
(`payment_schedule.py:101-165`).  `now` is `datetime.now()` made explicit.
Returns `Except.ok` with the (possibly unchanged) row on a normal return.
`Except.error ()` models the `NameError` raised at `payment_schedule.py:148`:
when a past/current period has no historical average, the code executes
`logger.warning(...)` but `logger` is never defined or imported in
`payment_schedule.py`, so the exception propagates to the caller before any
field of the row is assigned. -/
def recalculate_with_historical_rates (s : List CBRKeyRate) (now : ℤ)
    (base_rate_indicator : String) (credit_spread : ℚ) (p : SchedPeriod) :
    Except Unit SchedPeriod :=
  match p.period_start_date, p.period_end_date with
  | some period_start, some period_end =>
    if base_rate_indicator = "KEY_RATE" then
      if now < period_start then
        match get_current_key_rate s with
        | some current_rate =>
          .ok (recalcFinish { p with
            base_rate := some current_rate,
            interest_rate := some (current_rate + credit_spread) })
        | none => .ok p
      else
        match get_average_key_rate_for_period s period_start period_end with
        | some average_base_rate =>
          .ok (recalcFinish { p with
            base_rate := some average_base_rate,
            interest_rate := some (average_base_rate + credit_spread) })
        | none => .error ()
    else .ok p
  | _, _ => .ok p

/-- The per-period loop of the `recalculate_interest_with_historical_rates`
router (`credits.py:737-765`), run inside a single `try`: the first exception
aborts the whole batch (the router rolls the transaction back and turns it
into an HTTP 500), so later periods are not attempted. -/
def recalcAllPeriods (s : List CBRKeyRate) (now : ℤ)
    (base_rate_indicator : String) (credit_spread : ℚ) :
    List SchedPeriod → Except Unit (List SchedPeriod)
  | [] => .ok []
  | p :: ps =>
    match recalculate_with_historical_rates s now base_rate_indicator credit_spread p with
    | .ok p' =>
      match recalcAllPeriods s now base_rate_indicator credit_spread ps with
      | .ok ps' => .ok (p' :: ps')
      | .error e => .error e
    | .error e => .error e

/-- `PaymentFrequency` (`credit_obligation.py:11-15`): a closed enumeration. -/
inductive PaymentFrequency where
  | MONTHLY
  | QUARTERLY
  | SEMI_ANNUAL
  | ANNUAL
deriving DecidableEq, Repr

/-- `PaymentType` (`credit_obligation.py:18-22`): a closed enumeration. -/
inductive PaymentType where
  | ANNUITY
  | DIFFERENTIATED
  | BULLET
  | INTEREST_ONLY
deriving DecidableEq, Repr

/-- A calendar date, as used by the schedule generator (the generator does
month/day arithmetic, so epoch-day integers do not suffice for it). -/
structure CalDate where
  year : ℕ
  month : ℕ
  day : ℕ
deriving DecidableEq, Repr

/-- Python `<` on dates: lexicographic on (year, month, day). -/
def dateLt (a b : CalDate) : Prop :=
  a.year < b.year ∨ (a.year = b.year ∧
    (a.month < b.month ∨ (a.month = b.month ∧ a.day < b.day)))

instance (a b : CalDate) : Decidable (dateLt a b) :=
  inferInstanceAs (Decidable (_ ∨ _))

/-- Python `<=` on dates. -/
def dateLe (a b : CalDate) : Prop := dateLt a b ∨ a = b

instance (a b : CalDate) : Decidable (dateLe a b) :=
  inferInstanceAs (Decidable (_ ∨ _))

/-- Gregorian leap-year rule, as implemented by Python's `calendar` module. -/
def isLeap (y : ℕ) : Bool :=
  y % 4 = 0 && (y % 100 ≠ 0 || y % 400 = 0)

/-- `calendar.monthrange(y, m)[1]`: the number of days in the month. -/
def monthrange (y m : ℕ) : ℕ :=
  if m = 2 then (if isLeap y then 29 else 28)
  else if m = 4 ∨ m = 6 ∨ m = 9 ∨ m = 11 then 30
  else 31

/-- The `while new_month > 12: new_month -= 12; new_year += 1` normalisation
loop of `generate_payment_schedule` (`credits.py:99-101`), with the month
itself as structurally decreasing fuel (each iteration removes 12). -/
def normMonthAux : ℕ → ℕ → ℕ → ℕ × ℕ
  | 0, new_month, new_year => (new_month, new_year)
  | fuel + 1, new_month, new_year =>
    if new_month > 12 then normMonthAux fuel (new_month - 12) (new_year + 1)
    else (new_month, new_year)

/-- Year roll-over for a candidate month. -/
def normMonth (new_month new_year : ℕ) : ℕ × ℕ :=
  normMonthAux new_month new_month new_year

/-- The fields of `CreditObligation` (`credit_obligation.py:25-56`) consumed
by schedule generation. -/
structure CreditTerms where
  principal_amount : ℚ
  start_date : CalDate
  end_date : CalDate
  base_rate_value : ℚ
  credit_spread : ℚ
  payment_frequency : PaymentFrequency
  payment_type : PaymentType
deriving DecidableEq, Repr

/-- The `period_increment` dictionary of `generate_payment_schedule`
(`credits.py:82-89`).  The Python `dict.get` default of 1 is unreachable for
enum-typed inputs because all four members are keys. -/
def period_increment : PaymentFrequency → ℕ
  | .MONTHLY => 1
  | .QUARTERLY => 3
  | .SEMI_ANNUAL => 6
  | .ANNUAL => 12

/-- Days-from-civil conversion (proleptic Gregorian, epoch 1970-01-01), used
to model Python's exact `(end_date - start_date).days` on calendar dates. -/
def CalDate.toDays (dt : CalDate) : ℤ :=
  let y : ℤ := if dt.month ≤ 2 then (dt.year : ℤ) - 1 else (dt.year : ℤ)
  let era : ℤ := (if 0 ≤ y then y else y - 399) / 400
  let yoe : ℤ := y - era * 400
  let mp : ℤ := ((dt.month : ℤ) + 9) % 12
  let doy : ℤ := (153 * mp + 2) / 5 + (dt.day : ℤ) - 1
  let doe : ℤ := yoe * 365 + yoe / 4 - yoe / 100 + doy
  era * 146097 + doe - 719468

/-- One row produced by the generator: a fresh `PaymentSchedule` ORM object
(`credits.py:143-153`), with the nullable financial fields initially unset
until `calculate_financials` runs. -/
structure GenPeriod where
  period_start_date : CalDate
  period_end_date : CalDate
  payment_date : CalDate
  principal_amount : ℚ
  period_number : ℕ
  interest_rate : ℚ
  base_rate : ℚ
  spread : ℚ
  period_days : Option ℤ
  interest_amount : Option ℚ
  total_payment : Option ℚ
deriving DecidableEq, Repr

/-- `PaymentSchedule.calculate_financials` (`payment_schedule.py:84-99`) on a
freshly generated row: sets `period_days` (both dates are present, hence
truthy), then `interest_amount` and `total_payment` under Python truthiness
guards. -/
def calculate_financials (p : GenPeriod) : GenPeriod :=
  let p :=
    { p with period_days := some (p.period_end_date.toDays - p.period_start_date.toDays) }
  let p :=
    if p.principal_amount ≠ 0 ∧ p.interest_rate ≠ 0 ∧ truthyInt p.period_days then
      { p with interest_amount := some (calculate_interest_amount
          p.principal_amount p.interest_rate ((p.period_days).getD 0)) }
    else p
  if p.principal_amount ≠ 0 ∧ truthyRat p.interest_amount then
    { p with total_payment := p.interest_amount }
  else p

/-- One iteration of the generation loop of `generate_payment_schedule`
(`credits.py:91-157`), building the period that starts at `current_start`:
candidate end = month `current_start.month + month_increment` (year rolled
over), day = the override clamped to the month's length if a truthy override
is given, else the month's last day; the `datetime.replace` call cannot fail
after that clamp, and the defensive `except ValueError` re-clamp is modelled
by the same guard; the end is then clamped to `credit.end_date`. -/
def makePeriod (credit : CreditTerms) (payment_day_override : Option ℕ)
    (current_start : CalDate) (period_num : ℕ) : GenPeriod :=
  let month_increment := period_increment credit.payment_frequency
  let nm := normMonth (current_start.month + month_increment) current_start.year
  let new_month := nm.1
  let new_year := nm.2
  let target_day :=
    match payment_day_override with
    | some pd => if pd ≠ 0 then min pd (monthrange new_year new_month)
                 else monthrange new_year new_month
    | none => monthrange new_year new_month
  let period_end_raw : CalDate :=
    if target_day ≤ monthrange new_year new_month ∧ 1 ≤ target_day then
      ⟨new_year, new_month, target_day⟩
    else
      ⟨new_year, new_month, monthrange new_year new_month⟩
  let period_end :=
    if dateLt credit.end_date period_end_raw then credit.end_date else period_end_raw
  let payment_date := period_end
  let principal_for_period :=
    match credit.payment_type with
    | .BULLET =>
      if dateLe credit.end_date period_end then credit.principal_amount
      else credit.principal_amount
    | .INTEREST_ONLY => credit.principal_amount
    | _ => credit.principal_amount
  let base_rate_for_period := credit.base_rate_value
  let total_rate_for_period := base_rate_for_period + credit.credit_spread
  calculate_financials
    { period_start_date := current_start
      period_end_date := period_end
      payment_date := payment_date
      principal_amount := principal_for_period
      period_number := period_num
      interest_rate := total_rate_for_period
      base_rate := base_rate_for_period
      spread := credit.credit_spread
      period_days := none
      interest_amount := none
      total_payment := none }

/-- The `while current_start < credit.end_date` loop of
`generate_payment_schedule` (`credits.py:91-166`).  `fuel = 101 - period_num`,
so the structural recursion bottoms out exactly when the Python safety check
`if period_num > 100: break` fires (after the 100th append); the second
component is `true` iff that warning branch was taken. -/
def genLoop (credit : CreditTerms) (payment_day_override : Option ℕ) :
    ℕ → CalDate → ℕ → List GenPeriod × Bool
  | 0, _, _ => ([], true)
  | fuel + 1, current_start, period_num =>
    if dateLt current_start credit.end_date then
      let p := makePeriod credit payment_day_override current_start period_num
      let rest := genLoop credit payment_day_override fuel p.period_end_date (period_num + 1)
      (p :: rest.1, rest.2)
    else ([], false)

/-- `generate_payment_schedule` (`credits.py:65-181`): the whole body runs
inside `try ... except: raise`, hence the `Except` result type; the loop body
itself cannot raise (all date constructions are pre-clamped), so the function
always returns `Except.ok` with the generated periods and the
too-many-periods warning flag.  It performs no validation of
`credit.start_date`, `credit.end_date` or `credit.principal_amount`. -/
def generate_payment_schedule (credit : CreditTerms)
    (payment_day_override : Option ℕ) : Except Unit (List GenPeriod × Bool) :=
  .ok (genLoop credit payment_day_override 100 credit.start_date 1)

/-- Adjacent-period linkage produced by the generation loop: the first period
starts at the loop's current start and each later period starts where the
previous one ended. -/
def ContigFrom : CalDate → List GenPeriod → Prop
  | _, [] => True
  | cur, p :: ps => p.period_start_date = cur ∧ ContigFrom p.period_end_date ps

/-- A monthly credit spanning 108 months: more periods than the 100-period
safety cap allows.  The zero amounts are irrelevant to the date claims. -/
def creditCapped : CreditTerms :=
  { principal_amount := 0
    start_date := ⟨2015, 1, 1⟩
    end_date := ⟨2024, 1, 1⟩
    base_rate_value := 0
    credit_spread := 0
    payment_frequency := .MONTHLY
    payment_type := .INTEREST_ONLY }

/-- A monthly credit over one year: 12 periods, well under the cap. -/
def creditSmall : CreditTerms :=
  { principal_amount := 0
    start_date := ⟨2024, 1, 1⟩
    end_date := ⟨2025, 1, 1⟩
    base_rate_value := 0
    credit_spread := 0
    payment_frequency := .MONTHLY
    payment_type := .INTEREST_ONLY }

/-- Invalid terms: `end_date = start_date` and non-positive principal. -/
def creditDegenerate : CreditTerms :=
  { principal_amount := 0
    start_date := ⟨2024, 1, 1⟩
    end_date := ⟨2024, 1, 1⟩
    base_rate_value := 0
    credit_spread := 0
    payment_frequency := .MONTHLY
    payment_type := .INTEREST_ONLY }

/-- A persisted period fully in the past relative to `now = 100`:
days 0 to 30 of the epoch. -/
def periodPast1 : SchedPeriod :=
  { period_start_date := some 0
    period_end_date := some 30
    payment_date := some 30
    principal_amount := 1000000
    interest_amount := some 15000
    total_payment := some 15000
    period_days := some 30
    period_number := 1
    interest_rate := some 18
    base_rate := some 16
    spread := some 2 }

/-- A second past period, days 50 to 80 of the epoch. -/
def periodPast2 : SchedPeriod :=
  { period_start_date := some 50
    period_end_date := some 80
    payment_date := some 80
    principal_amount := 1000000
    interest_amount := some 15000
    total_payment := some 15000
    period_days := some 30
    period_number := 2
    interest_rate := some 18
    base_rate := some 16
    spread := some 2 }

theorem dateLt_asymm_eq {a b : CalDate} (h1 : ¬ dateLt a b) (h2 : ¬ dateLt b a) :
    a = b := by
  obtain ⟨y1, m1, d1⟩ := a
  obtain ⟨y2, m2, d2⟩ := b
  simp only [dateLt, not_or, not_and, not_lt] at h1 h2
  simp only [CalDate.mk.injEq]
  omega

theorem calculate_financials_frame (p : GenPeriod) :
    (calculate_financials p).period_start_date = p.period_start_date
    ∧ (calculate_financials p).period_end_date = p.period_end_date := by
  simp only [calculate_financials]
  constructor <;> (split <;> (try split) <;> rfl)

theorem makePeriod_start (c : CreditTerms) (pd : Option ℕ) (cur : CalDate) (num : ℕ) :
    (makePeriod c pd cur num).period_start_date = cur := by
  unfold makePeriod
  rw [(calculate_financials_frame _).1]

theorem clamp_cases (e r : CalDate) :
    (if dateLt e r then e else r) = e ∨ ¬ dateLt e (if dateLt e r then e else r) := by
  split
  · exact Or.inl rfl
  · next h => exact Or.inr h

theorem makePeriod_end_cases (c : CreditTerms) (pd : Option ℕ) (cur : CalDate) (num : ℕ) :
    (makePeriod c pd cur num).period_end_date = c.end_date
    ∨ ¬ dateLt c.end_date (makePeriod c pd cur num).period_end_date := by
  unfold makePeriod
  rw [(calculate_financials_frame _).2]
  exact clamp_cases c.end_date _

theorem genLoop_stop (c : CreditTerms) (pd : Option ℕ) (fuel : ℕ) (cur : CalDate)
    (num : ℕ) (h : ¬ dateLt cur c.end_date) :
    genLoop c pd (fuel + 1) cur num = ([], false) := by
  conv_lhs => rw [genLoop]
  rw [if_neg h]

theorem genLoop_length_le (c : CreditTerms) (pd : Option ℕ) :
    ∀ (fuel : ℕ) (cur : CalDate) (num : ℕ),
      ((genLoop c pd fuel cur num).1).length ≤ fuel := by
  intro fuel
  induction fuel with
  | zero => intro cur num; simp [genLoop]
  | succ f ih =>
    intro cur num
    simp only [genLoop]
    split
    · simpa using Nat.succ_le_succ (ih _ _)
    · simp

theorem genLoop_snd_iff (c : CreditTerms) (pd : Option ℕ) :
    ∀ (fuel : ℕ) (cur : CalDate) (num : ℕ),
      ((genLoop c pd fuel cur num).2 = true
        ↔ ((genLoop c pd fuel cur num).1).length = fuel) := by
  intro fuel
  induction fuel with
  | zero => intro cur num; simp [genLoop]
  | succ f ih =>
    intro cur num
    simp only [genLoop]
    split
    · simp only [List.length_cons]
      rw [ih _ _]
      omega
    · exact iff_of_false (by simp) (by simp)

theorem genLoop_contig (c : CreditTerms) (pd : Option ℕ) :
    ∀ (fuel : ℕ) (cur : CalDate) (num : ℕ),
      ContigFrom cur ((genLoop c pd fuel cur num).1) := by
  intro fuel
  induction fuel with
  | zero => intro cur num; simp [genLoop, ContigFrom]
  | succ f ih =>
    intro cur num
    simp only [genLoop]
    split
    · exact ⟨makePeriod_start c pd cur num, ih _ _⟩
    · simp [ContigFrom]

theorem contigFrom_chain (l : List GenPeriod) :
    ∀ (cur : CalDate), ContigFrom cur l →
      List.Chain' (fun a b => a.period_end_date = b.period_start_date) l := by
  induction l with
  | nil => intro cur _; simp
  | cons p ps ih =>
    intro cur h
    cases ps with
    | nil => simp
    | cons q qs =>
      obtain ⟨_, hq, hrest⟩ := h
      rw [List.chain'_cons]
      exact ⟨hq.symm, ih _ ⟨hq, hrest⟩⟩

theorem genLoop_last_end (c : CreditTerms) (pd : Option ℕ) :
    ∀ (fuel : ℕ) (cur : CalDate) (num : ℕ) (ps : List GenPeriod),
      genLoop c pd fuel cur num = (ps, false) →
      ∀ p, ps.getLast? = some p → p.period_end_date = c.end_date := by
  intro fuel
  induction fuel with
  | zero => intro cur num ps h; simp [genLoop] at h
  | succ f ih =>
    intro cur num ps h
    simp only [genLoop] at h
    split at h
    · rw [Prod.mk.injEq] at h
      obtain ⟨hps, hw⟩ := h
      subst hps
      cases hr : (genLoop c pd f (makePeriod c pd cur num).period_end_date (num + 1)).1 with
      | nil =>
        intro p hp
        have hp2 : some (makePeriod c pd cur num) = some p := hp
        have hp3 := Option.some.inj hp2
        subst hp3
        rcases makePeriod_end_cases c pd cur num with he | he
        · exact he
        · cases f with
          | zero => simp [genLoop] at hw
          | succ f2 =>
            simp only [genLoop] at hr
            split at hr
            · simp at hr
            · next hnlt => exact dateLt_asymm_eq hnlt he
      | cons q qs =>
        intro p hp
        rw [List.getLast?_cons_cons] at hp
        refine ih (makePeriod c pd cur num).period_end_date (num + 1) (q :: qs) ?_ p hp
        rw [← hr, ← hw]
    · rw [Prod.mk.injEq] at h
      obtain ⟨hps, _⟩ := h
      subst hps
      intro p hp
      simp at hp

/-- Claim C2, counterexample: for terms with `end_date = start_date` and a
non-positive principal, `generate_payment_schedule` raises nothing and
returns an empty schedule (with no warning) instead of a validation error. -/
theorem claim_C2_counterexample :
    generate_payment_schedule creditDegenerate none = .ok ([], false) := rfl

/-- Claim C2 (amended): `generate_payment_schedule` performs no validation at
all.  It never raises — every input produces a normal `Except.ok` result —
and whenever `end_date ≤ start_date` (so the loop guard fails immediately) it
silently returns the empty schedule with no warning.  (Non-positive
principals are likewise accepted, and an unsupported payment frequency is not
representable: the frequency enum is closed and every member is a key of the
increment dictionary, so its `.get` default of 1 is dead code.  Validation of
the terms happens only in the API-boundary pydantic schema, an external
collaborator.) -/
theorem claim_C2_amended :
    ∀ (c : CreditTerms) (pd : Option ℕ),
      (∃ v, generate_payment_schedule c pd = .ok v)
      ∧ (¬ dateLt c.start_date c.end_date →
          generate_payment_schedule c pd = .ok ([], false)) := by
  intro c pd
  refine ⟨⟨_, rfl⟩, fun h => ?_⟩
  unfold generate_payment_schedule
  have h100 : genLoop c pd 100 c.start_date 1 = ([], false) :=
    genLoop_stop c pd 99 c.start_date 1 h
  rw [h100]

/-- Claim C2 witness: the amended claim applied to the degenerate terms. -/
theorem claim_C2_witness :
    (∃ v, generate_payment_schedule creditDegenerate none = .ok v)
    ∧ generate_payment_schedule creditDegenerate none = .ok ([], false) :=
  ⟨(claim_C2_amended creditDegenerate none).1,
   (claim_C2_amended creditDegenerate none).2 (by decide)⟩

/-- Claim C3, counterexample: for a monthly credit spanning 108 months the
loop is cut off by the 100-period safety cap, and the final generated
period ends 2023-05-31, not the credit's `end_date` 2024-01-01. -/
theorem claim_C3_counterexample :
    generate_payment_schedule creditCapped none
      = .ok (genLoop creditCapped none 100 creditCapped.start_date 1)
    ∧ (genLoop creditCapped none 100 creditCapped.start_date 1).1.getLast?.map
        GenPeriod.period_end_date = some ⟨2023, 5, 31⟩
    ∧ (genLoop creditCapped none 100 creditCapped.start_date 1).1.getLast?.map
        GenPeriod.period_end_date ≠ some creditCapped.end_date
    ∧ creditCapped.end_date = ⟨2024, 1, 1⟩ :=
  ⟨rfl, by decide, by decide, by decide⟩

/-- Claim C3 (amended): every generated schedule is contiguous
(`periods[i].period_end_date = periods[i+1].period_start_date`), and the
final period's `period_end_date` equals `CreditTerms.end_date` whenever the
100-period safety cap did not fire; a capped schedule is cut off early and
its final period can end before `end_date`. -/
theorem claim_C3_amended :
    ∀ (c : CreditTerms) (pd : Option ℕ) (r : List GenPeriod × Bool),
      generate_payment_schedule c pd = .ok r →
      List.Chain' (fun a b => a.period_end_date = b.period_start_date) r.1
      ∧ (r.2 = false → ∀ p, r.1.getLast? = some p → p.period_end_date = c.end_date) := by
  intro c pd r h
  unfold generate_payment_schedule at h
  have h' : genLoop c pd 100 c.start_date 1 = r := Except.ok.inj h
  constructor
  · have hc := genLoop_contig c pd 100 c.start_date 1
    rw [h'] at hc
    exact contigFrom_chain r.1 c.start_date hc
  · intro hw p hp
    have h2 : genLoop c pd 100 c.start_date 1 = (r.1, false) := by
      rw [h', ← hw]
    exact genLoop_last_end c pd 100 c.start_date 1 r.1 h2 p hp

/-- Claim C3 witness: the amended claim applied to the 12-period credit,
whose uncapped schedule is contiguous and ends exactly at `end_date`. -/
theorem claim_C3_witness :
    List.Chain' (fun a b => a.period_end_date = b.period_start_date)
      (genLoop creditSmall none 100 creditSmall.start_date 1).1
    ∧ (genLoop creditSmall none 100 creditSmall.start_date 1).1.getLast?.map
        GenPeriod.period_end_date = some creditSmall.end_date := by
  have h := claim_C3_amended creditSmall none
    (genLoop creditSmall none 100 creditSmall.start_date 1) rfl
  refine ⟨h.1, ?_⟩
  have h2 := h.2 (by decide)
  cases hl : (genLoop creditSmall none 100 creditSmall.start_date 1).1.getLast? with
  | none =>
    have : (genLoop creditSmall none 100 creditSmall.start_date 1).1.getLast?.isSome
        = true := by decide
    rw [hl] at this
    cases this
  | some p =>
    simpa using h2 p hl

/-- Claim C5: generation always terminates with at most 100 periods, and the
too-many-periods warning fires exactly when the 100-period cap is reached, in
which case the periods generated so far are still returned normally (the
function never fails: it is total and always returns `Except.ok`). -/
theorem claim_C5 :
    ∀ (c : CreditTerms) (pd : Option ℕ) (r : List GenPeriod × Bool),
      generate_payment_schedule c pd = .ok r →
      r.1.length ≤ 100 ∧ (r.2 = true ↔ r.1.length = 100) := by
  intro c pd r h
  unfold generate_payment_schedule at h
  have h' : genLoop c pd 100 c.start_date 1 = r := Except.ok.inj h
  have hl := genLoop_length_le c pd 100 c.start_date 1
  have hs := genLoop_snd_iff c pd 100 c.start_date 1
  rw [h'] at hl hs
  exact ⟨hl, hs⟩

/-- Claim C5 witness: applied to the 108-month credit, whose generation hits
the cap with exactly 100 periods and the warning flag set. -/
theorem claim_C5_witness :
    (genLoop creditCapped none 100 creditCapped.start_date 1).1.length ≤ 100
    ∧ ((genLoop creditCapped none 100 creditCapped.start_date 1).2 = true
        ↔ (genLoop creditCapped none 100 creditCapped.start_date 1).1.length = 100) :=
  claim_C5 creditCapped none
    (genLoop creditCapped none 100 creditCapped.start_date 1) rfl

theorem recalcFinish_frame (q : SchedPeriod) :
    (recalcFinish q).period_number = q.period_number
    ∧ (recalcFinish q).period_start_date = q.period_start_date
    ∧ (recalcFinish q).period_end_date = q.period_end_date
    ∧ (recalcFinish q).payment_date = q.payment_date
    ∧ (recalcFinish q).principal_amount = q.principal_amount
    ∧ (recalcFinish q).period_days = q.period_days := by
  unfold recalcFinish
  split
  · split <;> exact ⟨rfl, rfl, rfl, rfl, rfl, rfl⟩
  · exact ⟨rfl, rfl, rfl, rfl, rfl, rfl⟩

/-- Claim C7: recalculation rewrites only the rate and interest fields; the
period's identity (`period_number`, the three dates), `principal_amount` and
`period_days` are unchanged on every normal return — whether the period was
updated or skipped (unsupported indicator, missing dates, no current rate for
a future period).  On the failing path the method raises before assigning any
field, so nothing is rewritten there either. -/
theorem claim_C7 :
    ∀ (s : List CBRKeyRate) (now : ℤ) (base_rate_indicator : String)
      (credit_spread : ℚ) (p p' : SchedPeriod),
      recalculate_with_historical_rates s now base_rate_indicator credit_spread p
        = .ok p' →
      p'.period_number = p.period_number
      ∧ p'.period_start_date = p.period_start_date
      ∧ p'.period_end_date = p.period_end_date
      ∧ p'.payment_date = p.payment_date
      ∧ p'.principal_amount = p.principal_amount
      ∧ p'.period_days = p.period_days := by
  intro s now base_rate_indicator credit_spread p p' h
  unfold recalculate_with_historical_rates at h
  repeat' split at h
  all_goals
    first
    | exact Except.noConfusion h
    | (have h2 := Except.ok.inj h
       subst h2
       first
       | exact ⟨rfl, rfl, rfl, rfl, rfl, rfl⟩
       | exact recalcFinish_frame _)

/-- Claim C7 witness: the frame property applied to a successful historical
recalculation of `periodPast1` against a one-point store. -/
theorem claim_C7_witness :
    ((recalculate_with_historical_rates [⟨-2, 0, 10⟩] 100 "KEY_RATE" 2
        periodPast1).toOption.getD periodPast1).period_number
      = periodPast1.period_number
    ∧ ((recalculate_with_historical_rates [⟨-2, 0, 10⟩] 100 "KEY_RATE" 2
        periodPast1).toOption.getD periodPast1).period_start_date
      = periodPast1.period_start_date
    ∧ ((recalculate_with_historical_rates [⟨-2, 0, 10⟩] 100 "KEY_RATE" 2
        periodPast1).toOption.getD periodPast1).period_end_date
      = periodPast1.period_end_date
    ∧ ((recalculate_with_historical_rates [⟨-2, 0, 10⟩] 100 "KEY_RATE" 2
        periodPast1).toOption.getD periodPast1).payment_date
      = periodPast1.payment_date
    ∧ ((recalculate_with_historical_rates [⟨-2, 0, 10⟩] 100 "KEY_RATE" 2
        periodPast1).toOption.getD periodPast1).principal_amount
      = periodPast1.principal_amount
    ∧ ((recalculate_with_historical_rates [⟨-2, 0, 10⟩] 100 "KEY_RATE" 2
        periodPast1).toOption.getD periodPast1).period_days
      = periodPast1.period_days :=
  claim_C7 [⟨-2, 0, 10⟩] 100 "KEY_RATE" 2 periodPast1 _ rfl

/-- Claim C1, code bug: for a past period whose date range has no rate data,
`recalculate_with_historical_rates` does not skip the period — it executes
`logger.warning(...)` at `payment_schedule.py:148` where `logger` is never
defined or imported, so a `NameError` escapes, the router's single
`try/except` rolls the transaction back and answers HTTP 500, and the
remaining periods are never attempted.  Here `periodPast1` (days 0-30) has no
rate at or before its range, while `periodPast2` (days 50-80) alone would
recalculate fine against the same store; the batch nevertheless errors. -/
theorem claim_C1_code_bug :
    recalcAllPeriods [⟨58, 60, 10⟩] 100 "KEY_RATE" 2 [periodPast1, periodPast2]
      = .error ()
    ∧ recalculate_with_historical_rates [⟨58, 60, 10⟩] 100 "KEY_RATE" 2 periodPast1
      = .error ()
    ∧ (∃ p', recalculate_with_historical_rates [⟨58, 60, 10⟩] 100 "KEY_RATE" 2
        periodPast2 = .ok p') :=
  ⟨rfl, rfl, ⟨_, rfl⟩⟩

theorem get_rate_on_date_spec {s : List CBRKeyRate} {d : ℤ} {p : CBRKeyRate}
    (h : get_rate_on_date s d = some p) :
    p ∈ s ∧ p.effective_date ≤ d
      ∧ ∀ q ∈ s, q.effective_date ≤ d → q.effective_date ≤ p.effective_date := by
  unfold get_rate_on_date at h
  rcases hL : List.insertionSort effGe
      (s.filter (fun q => decide (q.effective_date ≤ d))) with _ | ⟨g, L'⟩
  · rw [hL] at h; cases h
  · rw [hL] at h
    have hgp : g = p := Option.some.inj h
    subst hgp
    have hsort := List.sorted_insertionSort effGe
      (s.filter (fun q => decide (q.effective_date ≤ d)))
    rw [hL] at hsort
    have hgF : g ∈ s.filter (fun q => decide (q.effective_date ≤ d)) := by
      have hm : g ∈ List.insertionSort effGe
          (s.filter (fun q => decide (q.effective_date ≤ d))) := by
        rw [hL]; exact List.mem_cons_self g L'
      exact (List.mem_insertionSort effGe).mp hm
    obtain ⟨hgs, hgd⟩ := List.mem_filter.mp hgF
    refine ⟨hgs, of_decide_eq_true hgd, fun q hq hqd => ?_⟩
    have hqF : q ∈ s.filter (fun r => decide (r.effective_date ≤ d)) :=
      List.mem_filter.mpr ⟨hq, decide_eq_true hqd⟩
    have hqL : q ∈ g :: L' := by
      have hm := (List.mem_insertionSort effGe).mpr hqF
      rw [hL] at hm; exact hm
    rcases List.mem_cons.mp hqL with h1 | h1
    · rw [h1]
    · exact List.rel_of_sorted_cons hsort q h1

theorem get_rate_on_date_isSome_of_mem {s : List CBRKeyRate} {d : ℤ} {q : CBRKeyRate}
    (hq : q ∈ s) (hle : q.effective_date ≤ d) :
    ∃ g, get_rate_on_date s d = some g := by
  unfold get_rate_on_date
  rcases hL : List.insertionSort effGe
      (s.filter (fun r => decide (r.effective_date ≤ d))) with _ | ⟨g, L'⟩
  · exfalso
    have hqF : q ∈ s.filter (fun r => decide (r.effective_date ≤ d)) :=
      List.mem_filter.mpr ⟨hq, decide_eq_true hle⟩
    have hm := (List.mem_insertionSort effGe).mpr hqF
    rw [hL] at hm
    simp at hm
  · exact ⟨g, rfl⟩

theorem get_rate_on_date_eq_of_max {s : List CBRKeyRate}
    (hnd : (s.map (fun p => p.effective_date)).Nodup) {d : ℤ} {p : CBRKeyRate}
    (hp : p ∈ s) (hpd : p.effective_date ≤ d)
    (hmax : ∀ q ∈ s, q.effective_date ≤ d → q.effective_date ≤ p.effective_date) :
    get_rate_on_date s d = some p := by
  obtain ⟨g, hg⟩ := get_rate_on_date_isSome_of_mem hp hpd
  obtain ⟨hgs, hgd, hgmax⟩ := get_rate_on_date_spec hg
  have heq : g.effective_date = p.effective_date :=
    le_antisymm (hmax g hgs hgd) (hgmax p hp hpd)
  rw [hg, List.inj_on_of_nodup_map hnd hgs hp heq]

theorem get_rate_on_date_const {s : List CBRKeyRate}
    (hnd : (s.map (fun p => p.effective_date)).Nodup) {a d : ℤ} {p : CBRKeyRate}
    (ha : get_rate_on_date s a = some p) (had : a ≤ d)
    (hgap : ∀ q ∈ s, q.effective_date ≤ d → q.effective_date ≤ a) :
    get_rate_on_date s d = some p := by
  obtain ⟨hps, hpa, hpmax⟩ := get_rate_on_date_spec ha
  exact get_rate_on_date_eq_of_max hnd hps (le_trans hpa had)
    (fun q hq hqd => hpmax q hq (hgap q hq hqd))

theorem sum_Ico_split (f : ℤ → ℚ) {m n k : ℤ} (h1 : m ≤ n) (h2 : n ≤ k) :
    (∑ i in Finset.Ico m n, f i) + (∑ i in Finset.Ico n k, f i)
      = (∑ i in Finset.Ico m k, f i) := by
  rw [← Finset.Ico_union_Ico_eq_Ico h1 h2,
    Finset.sum_union (Finset.Ico_disjoint_Ico_consecutive m n k)]

theorem sum_step_const {s : List CBRKeyRate} {x y : ℤ} {p : CBRKeyRate}
    (hxy : x ≤ y)
    (h : ∀ d, x ≤ d → d < y → get_rate_on_date s d = some p) :
    (∑ d in Finset.Ico x y, ((get_key_rate_on_date s d).getD 0))
      = p.rate * ((y - x : ℤ) : ℚ) := by
  have hcongr : ∀ d ∈ Finset.Ico x y,
      ((get_key_rate_on_date s d).getD 0) = p.rate := by
    intro d hd
    obtain ⟨h1, h2⟩ := Finset.mem_Ico.mp hd
    rw [get_key_rate_on_date, h d h1 h2]
    rfl
  rw [Finset.sum_congr rfl hcongr, Finset.sum_const, Int.card_Ico, nsmul_eq_mul]
  rw [mul_comm]
  congr 1
  have h3 : (((y - x).toNat : ℤ)) = y - x := Int.toNat_of_nonneg (by omega)
  conv_rhs => rw [← h3]
  push_cast
  ring

theorem avgLoop_spec (s : List CBRKeyRate)
    (hnd : (s.map (fun p => p.effective_date)).Nodup) (a b : ℤ) :
    ∀ (R : List CBRKeyRate) (p : CBRKeyRate) (ws : ℚ) (tw : ℤ),
      List.Sorted effLe (p :: R) →
      (((p :: R).map (fun q => q.effective_date)).Nodup) →
      (∀ q ∈ p :: R, q ∈ s) →
      (∀ q ∈ p :: R, a ≤ q.effective_date ∧ q.effective_date ≤ b) →
      (∀ q ∈ s, p.effective_date ≤ q.effective_date → q.effective_date ≤ b →
        q ∈ p :: R) →
      avgLoop a b (p :: R) ws tw
        = (ws + (∑ d in Finset.Ico p.effective_date b,
            ((get_key_rate_on_date s d).getD 0)),
           tw + (b - p.effective_date)) := by
  intro R
  induction R with
  | nil =>
    intro p ws tw hsort hnd2 hsub hbound hcomp
    have hpa : a ≤ p.effective_date := (hbound p (List.mem_cons_self p [])).1
    have hpb : p.effective_date ≤ b := (hbound p (List.mem_cons_self p [])).2
    have hmax : ∀ d, p.effective_date ≤ d → d < b →
        get_rate_on_date s d = some p := by
      intro d hd1 hd2
      refine get_rate_on_date_eq_of_max hnd (hsub p (List.mem_cons_self p [])) hd1 ?_
      intro q hq hqd
      by_contra hgt
      have hlt : p.effective_date < q.effective_date := by omega
      have hql := hcomp q hq (le_of_lt hlt) (by omega)
      simp only [List.mem_cons, List.not_mem_nil, or_false] at hql
      subst hql
      omega
    rw [show avgLoop a b [p] ws tw
        = (if 0 < b - max p.effective_date a
           then (ws + p.rate * ((b - max p.effective_date a : ℤ) : ℚ),
                 tw + (b - max p.effective_date a))
           else (ws, tw)) from rfl]
    rw [max_eq_left hpa]
    split
    · rw [sum_step_const hpb hmax]
    · next hdays =>
      have hpe : p.effective_date = b := by omega
      rw [hpe, Finset.Ico_self]
      simp
  | cons p2 R' ih =>
    intro p ws tw hsort hnd2 hsub hbound hcomp
    have hpa : a ≤ p.effective_date := (hbound p (List.mem_cons_self p _)).1
    have hp2R : p2 ∈ p :: p2 :: R' :=
      List.mem_cons_of_mem p (List.mem_cons_self p2 R')
    have hp2b : p2.effective_date ≤ b := (hbound p2 hp2R).2
    have hple : effLe p p2 :=
      List.rel_of_sorted_cons hsort p2 (List.mem_cons_self p2 R')
    rw [List.map_cons] at hnd2
    have hnd2c := List.nodup_cons.mp hnd2
    have hpne : p.effective_date ≠ p2.effective_date := by
      intro heq
      refine hnd2c.1 ?_
      rw [List.map_cons]
      exact List.mem_cons.mpr (Or.inl heq)
    have hlt : p.effective_date < p2.effective_date := lt_of_le_of_ne hple hpne
    have hmax : ∀ d, p.effective_date ≤ d → d < p2.effective_date →
        get_rate_on_date s d = some p := by
      intro d hd1 hd2
      refine get_rate_on_date_eq_of_max hnd (hsub p (List.mem_cons_self p _)) hd1 ?_
      intro q hq hqd
      by_contra hgt
      have hqlt : p.effective_date < q.effective_date := by omega
      have hql := hcomp q hq (le_of_lt hqlt) (by omega)
      rcases List.mem_cons.mp hql with h1 | h1
      · subst h1; omega
      · have : effLe p2 q := by
          rcases List.mem_cons.mp h1 with h2 | h2
          · subst h2; exact le_refl _
          · exact List.rel_of_sorted_cons (List.Sorted.of_cons hsort) q h2
        unfold effLe at this
        omega
    have hcomp2 : ∀ q ∈ s, p2.effective_date ≤ q.effective_date →
        q.effective_date ≤ b → q ∈ p2 :: R' := by
      intro q hq h1 h2
      have hql := hcomp q hq (le_trans (le_of_lt hlt) h1) h2
      rcases List.mem_cons.mp hql with h3 | h3
      · subst h3; omega
      · exact h3
    rw [show avgLoop a b (p :: p2 :: R') ws tw
        = (if 0 < min p2.effective_date b - max p.effective_date a
           then avgLoop a b (p2 :: R')
             (ws + p.rate *
               ((min p2.effective_date b - max p.effective_date a : ℤ) : ℚ))
             (tw + (min p2.effective_date b - max p.effective_date a))
           else avgLoop a b (p2 :: R') ws tw) from rfl]
    rw [max_eq_left hpa, min_eq_left hp2b]
    rw [if_pos (by omega : (0:ℤ) < p2.effective_date - p.effective_date)]
    rw [ih p2 _ _ (List.Sorted.of_cons hsort) hnd2c.2
      (fun q hq => hsub q (List.mem_cons_of_mem p hq))
      (fun q hq => hbound q (List.mem_cons_of_mem p hq))
      hcomp2]
    rw [Prod.mk.injEq]
    constructor
    · rw [← sum_Ico_split _ (le_of_lt hlt) hp2b,
        sum_step_const (le_of_lt hlt) hmax]
      push_cast
      ring
    · omega

theorem avg_refines_timeWeighted :
    ∀ (s : List CBRKeyRate) (a b : ℤ) (r0 : CBRKeyRate),
      (s.map (fun p => p.effective_date)).Nodup →
      a < b →
      get_rate_on_date s a = some r0 →
      get_average_key_rate_for_period s a b
        = some (specTimeWeightedAverage s a b) := by
  intro s a b r0 hnd hab ha
  simp only [get_average_key_rate_for_period]
  rcases hRe : List.insertionSort effLe (s.filter
      (fun p => decide (a ≤ p.effective_date ∧ p.effective_date ≤ b)))
    with _ | ⟨p, R'⟩
  · rw [if_pos (by simp)]
    have hFnil : s.filter
        (fun p => decide (a ≤ p.effective_date ∧ p.effective_date ≤ b)) = [] := by
      have hperm := List.perm_insertionSort effLe (s.filter
        (fun p => decide (a ≤ p.effective_date ∧ p.effective_date ≤ b)))
      rw [hRe] at hperm
      exact (List.Perm.nil_eq hperm).symm
    have hconst : ∀ d, a ≤ d → d < b → get_rate_on_date s d = some r0 := by
      intro d hd1 hd2
      refine get_rate_on_date_const hnd ha hd1 ?_
      intro q hq hqd
      by_contra hgt
      have hqF : q ∈ s.filter
          (fun p => decide (a ≤ p.effective_date ∧ p.effective_date ≤ b)) :=
        List.mem_filter.mpr ⟨hq, decide_eq_true (by omega)⟩
      rw [hFnil] at hqF
      simp at hqF
    rw [ha]
    unfold specTimeWeightedAverage
    rw [sum_step_const (le_of_lt hab) hconst]
    rw [mul_div_assoc, div_self (Int.cast_ne_zero.mpr (by omega : b - a ≠ 0)),
      mul_one]
    rfl
  · rw [if_neg (by simp)]
    rw [if_neg (by omega : ¬ (b - a = 0))]
    have hperm := List.perm_insertionSort effLe (s.filter
      (fun p => decide (a ≤ p.effective_date ∧ p.effective_date ≤ b)))
    rw [hRe] at hperm
    have hmem : ∀ q, q ∈ p :: R' ↔
        (q ∈ s ∧ a ≤ q.effective_date ∧ q.effective_date ≤ b) := by
      intro q
      rw [hperm.mem_iff, List.mem_filter]
      constructor
      · rintro ⟨h1, h2⟩
        exact ⟨h1, of_decide_eq_true h2⟩
      · rintro ⟨h1, h2⟩
        exact ⟨h1, decide_eq_true h2⟩
    have hsortR : List.Sorted effLe (p :: R') := by
      have := List.sorted_insertionSort effLe (s.filter
        (fun p => decide (a ≤ p.effective_date ∧ p.effective_date ≤ b)))
      rw [hRe] at this
      exact this
    have hndR : ((p :: R').map (fun q => q.effective_date)).Nodup := by
      have hsubl : List.Sublist ((s.filter
          (fun p => decide (a ≤ p.effective_date ∧ p.effective_date ≤ b))).map
            (fun q => q.effective_date)) (s.map (fun q => q.effective_date)) :=
        List.Sublist.map _ (List.filter_sublist s)
      have hndF := List.Nodup.sublist hsubl hnd
      exact ((hperm.map (fun q => q.effective_date)).nodup_iff).mpr hndF
    have hpa : a ≤ p.effective_date := ((hmem p).mp (List.mem_cons_self p R')).2.1
    have hpb : p.effective_date ≤ b := ((hmem p).mp (List.mem_cons_self p R')).2.2
    have hloop := avgLoop_spec s hnd a b R' p 0 0 hsortR hndR
      (fun q hq => ((hmem q).mp hq).1)
      (fun q hq => ((hmem q).mp hq).2)
      (fun q hq h1 h2 => (hmem q).mpr ⟨hq, le_trans hpa h1, h2⟩)
    rw [List.head?_cons]
    rw [hloop]
    dsimp only
    by_cases hgap : a < p.effective_date
    · rw [if_pos hgap, ha]
      have hsum1 : (∑ d in Finset.Ico a p.effective_date,
          ((get_key_rate_on_date s d).getD 0))
            = r0.rate * ((p.effective_date - a : ℤ) : ℚ) := by
        refine sum_step_const (le_of_lt hgap) ?_
        intro d hd1 hd2
        refine get_rate_on_date_const hnd ha hd1 ?_
        intro q hq hqd
        by_contra hgt
        have hqR : q ∈ p :: R' := (hmem q).mpr ⟨hq, by omega, by omega⟩
        have : effLe p q := by
          rcases List.mem_cons.mp hqR with h1 | h1
          · subst h1; exact le_refl _
          · exact List.rel_of_sorted_cons hsortR q h1
        unfold effLe at this
        omega
      rw [if_neg (by omega :
        ¬ ((0:ℤ) + (b - p.effective_date)) + (p.effective_date - a) = 0)]
      unfold specTimeWeightedAverage
      rw [← sum_Ico_split _ (le_of_lt hgap) hpb, hsum1]
      have htw : (((0:ℤ) + (b - p.effective_date)) + (p.effective_date - a))
          = b - a := by ring
      rw [htw]
      congr 1
      push_cast
      ring
    · rw [if_neg hgap]
      have hpe : p.effective_date = a := by omega
      rw [if_neg (by omega : ¬ ((0:ℤ) + (b - p.effective_date)) = 0)]
      unfold specTimeWeightedAverage
      rw [hpe]
      have htw : ((0:ℤ) + (b - a)) = b - a := by ring
      rw [htw]
      congr 1
      push_cast
      ring

/-- Claim C4: `get_average_key_rate_for_period` computes the duration-weighted
average of the piecewise-constant rate in force across the window, with the
pre-window gap resolved through the rate in force at the window start: for
every store with pairwise distinct effective dates (the data-model
invariant), whenever the window is non-degenerate and some rate is in force
at its start, the result is the day-by-day average `specTimeWeightedAverage`.
In particular (the spec's two test vectors): three rate changes (10 from
day 0, 20 from day 10, 30 from day 20) average to (10*10+20*10+30*10)/30 = 20
over days 0-30, and a rate of 15 effective from day 5 over an earlier rate of
5 gives (5*5 + 15*5)/10 = 10 over days 0-10. -/
theorem claim_C4 :
    (∀ (s : List CBRKeyRate) (a b : ℤ) (r0 : CBRKeyRate),
      (s.map (fun p => p.effective_date)).Nodup →
      a < b →
      get_rate_on_date s a = some r0 →
      get_average_key_rate_for_period s a b
        = some (specTimeWeightedAverage s a b))
    ∧ get_average_key_rate_for_period
      [⟨-2, 0, 10⟩, ⟨8, 10, 20⟩, ⟨18, 20, 30⟩] 0 30 = some 20
    ∧ get_average_key_rate_for_period
      [⟨-12, -10, 5⟩, ⟨3, 5, 15⟩] 0 10 = some 10 := by
  refine ⟨avg_refines_timeWeighted, ?_, ?_⟩ <;>
    norm_num [get_average_key_rate_for_period, avgLoop, get_rate_on_date,
      List.insertionSort, List.orderedInsert, effLe, effGe, List.filter]

/-- Claim C4 witness: the weighted-average refinement applied to a concrete
two-point store over the window from day 5 to day 15. -/
theorem claim_C4_witness :
    get_average_key_rate_for_period [⟨-2, 0, 10⟩, ⟨8, 10, 20⟩] 5 15
      = some (specTimeWeightedAverage [⟨-2, 0, 10⟩, ⟨8, 10, 20⟩] 5 15) :=
  claim_C4.1 [⟨-2, 0, 10⟩, ⟨8, 10, 20⟩] 5 15 ⟨-2, 0, 10⟩
    (by decide) (by decide) rfl

/-- Claim C8: on an empty store, the current-rate, point and range queries
all answer `none`; none of them substitutes a numeric default. -/
theorem claim_C8 :
    get_current_key_rate [] = none
    ∧ (∀ d, get_key_rate_on_date [] d = none)
    ∧ (∀ a b, get_average_key_rate_for_period [] a b = none) :=
  ⟨rfl, fun _ => rfl, fun _ _ => rfl⟩

/-- Claim C10: the generation-time lookup `get_base_rate_value` is total and
always numeric — it fabricates defaults exactly where the query engine
reports unavailability: 16.0 for KEY_RATE on an empty store, 5.0 for LIBOR,
4.5 for SOFR, 16.0 for any unknown indicator. -/
theorem claim_C10 :
    (∀ s, get_base_rate_value "LIBOR" s = 5)
    ∧ (∀ s, get_base_rate_value "SOFR" s = 4.5)
    ∧ get_base_rate_value "KEY_RATE" [] = 16
    ∧ (∀ (ind : String) (s : List CBRKeyRate),
        ind ≠ "KEY_RATE" → ind ≠ "LIBOR" → ind ≠ "SOFR" →
        get_base_rate_value ind s = 16) := by
  refine ⟨fun s => rfl, fun s => rfl, rfl, fun ind s h1 h2 h3 => ?_⟩
  unfold get_base_rate_value
  rw [if_neg h1, if_neg h2, if_neg h3]

/-- Claim C10 witness: the default branch applied to an unknown indicator. -/
theorem claim_C10_witness : get_base_rate_value "RUONIA" [] = 16 :=
  claim_C10.2.2.2 "RUONIA" [] (by decide) (by decide) (by decide)

theorem upsertOne_fresh :
    ∀ (s : List CBRKeyRate) (p : CBRKeyRate),
      (∀ q ∈ s, q.date ≠ p.date) → upsertOne s p = s ++ [p] := by
  intro s p h
  induction s with
  | nil => rfl
  | cons q s' ih =>
    simp only [upsertOne]
    rw [if_neg (h q (List.mem_cons_self q s'))]
    rw [ih (fun r hr => h r (List.mem_cons_of_mem q hr))]
    rfl

theorem upsertOne_filter_singleton :
    ∀ (s : List CBRKeyRate) (p : CBRKeyRate),
      (s.filter (fun q => decide (q.date = p.date))).length ≤ 1 →
      (upsertOne s p).filter (fun q => decide (q.date = p.date))
        = [⟨p.date, p.effective_date, p.rate⟩] := by
  intro s p
  induction s with
  | nil =>
    intro _
    show List.filter _ [p] = _
    rw [List.filter_cons_of_pos (by simp)]
    rfl
  | cons q s' ih =>
    intro hlen
    by_cases hd : q.date = p.date
    · simp only [upsertOne, if_pos hd]
      rw [List.filter_cons_of_pos (by simpa using hd)]
      have hnil : s'.filter (fun q => decide (q.date = p.date)) = [] := by
        rw [List.filter_cons_of_pos (by simpa using hd)] at hlen
        simp only [List.length_cons] at hlen
        have : (s'.filter (fun q => decide (q.date = p.date))).length = 0 := by omega
        exact List.eq_nil_of_length_eq_zero this
      rw [hnil]
      obtain ⟨qd, qe, qr⟩ := q
      simp only at hd
      subst hd
      rfl
    · simp only [upsertOne, if_neg hd]
      rw [List.filter_cons_of_neg (by simpa using hd)]
      refine ih ?_
      rw [List.filter_cons_of_neg (by simpa using hd)] at hlen
      exact hlen

theorem upsertOne_length_of_mem :
    ∀ (s : List CBRKeyRate) (p : CBRKeyRate),
      (∃ q ∈ s, q.date = p.date) → (upsertOne s p).length = s.length := by
  intro s p
  induction s with
  | nil => rintro ⟨q, hq, _⟩; cases hq
  | cons q s' ih =>
    rintro ⟨r, hr, hrd⟩
    by_cases hd : q.date = p.date
    · simp [upsertOne, if_pos hd]
    · simp only [upsertOne, if_neg hd, List.length_cons]
      have hrs : r ∈ s' := by
        rcases List.mem_cons.mp hr with h1 | h1
        · exfalso; rw [h1] at hrd; exact hd hrd
        · exact h1
      rw [ih ⟨r, hrs, hrd⟩]

/-- Claim C6: the upsert loop is idempotent keyed by the announcement date.
An empty batch changes nothing and raises nothing; a point with a fresh
announcement date is appended; for a point whose announcement date may
already be present (the store invariant: at most one row per date), after the
upsert there is exactly one row with that date and it carries the new rate
and effective date; when the date was already present the store size is
unchanged (overwrite in place). -/
theorem claim_C6 :
    ∀ (s : List CBRKeyRate) (p : CBRKeyRate),
      update_key_rates s [] = (s, 0)
      ∧ ((∀ q ∈ s, q.date ≠ p.date) → update_key_rates s [p] = (s ++ [p], 1))
      ∧ ((s.filter (fun q => decide (q.date = p.date))).length ≤ 1 →
          (update_key_rates s [p]).1.filter (fun q => decide (q.date = p.date))
            = [⟨p.date, p.effective_date, p.rate⟩])
      ∧ ((∃ q ∈ s, q.date = p.date) →
          (update_key_rates s [p]).1.length = s.length) := by
  intro s p
  refine ⟨rfl, fun h => ?_, fun h => ?_, fun h => ?_⟩
  · show (upsertOne s p, 0 + 1) = (s ++ [p], 1)
    rw [upsertOne_fresh s p h]
  · exact upsertOne_filter_singleton s p h
  · exact upsertOne_length_of_mem s p h

/-- Claim C6 witness: upserting over a one-row store — a fresh announcement
date appends, a duplicate announcement date overwrites in place leaving a
single row with the new rate and effective date. -/
theorem claim_C6_witness :
    update_key_rates [(⟨0, 2, 10⟩ : CBRKeyRate)] [] = ([⟨0, 2, 10⟩], 0)
    ∧ update_key_rates [(⟨0, 2, 10⟩ : CBRKeyRate)] [⟨5, 7, 11⟩]
        = ([⟨0, 2, 10⟩] ++ [⟨5, 7, 11⟩], 1)
    ∧ (update_key_rates [(⟨0, 2, 10⟩ : CBRKeyRate)] [⟨0, 4, 20⟩]).1.filter
        (fun q => decide (q.date = (0 : ℤ))) = [⟨0, 4, 20⟩]
    ∧ (update_key_rates [(⟨0, 2, 10⟩ : CBRKeyRate)] [⟨0, 4, 20⟩]).1.length
        = [(⟨0, 2, 10⟩ : CBRKeyRate)].length :=
  ⟨(claim_C6 [⟨0, 2, 10⟩] ⟨5, 7, 11⟩).1,
   (claim_C6 [⟨0, 2, 10⟩] ⟨5, 7, 11⟩).2.1 (by decide),
   (claim_C6 [⟨0, 2, 10⟩] ⟨0, 4, 20⟩).2.2.1 (by decide),
   (claim_C6 [⟨0, 2, 10⟩] ⟨0, 4, 20⟩).2.2.2 ⟨⟨0, 2, 10⟩, by decide, rfl⟩⟩

/-- Claim C9: over any store whose rows have pairwise distinct effective
dates (the data-model invariant), the degenerate range query
`average_over(d, d)` agrees with the point query `rate_on(d)`: both return
the rate of the row with the greatest effective date at most `d`, or `none`
when no row is in force on `d`. -/
theorem claim_C9 :
    ∀ (s : List CBRKeyRate) (d : ℤ),
      (s.map (fun p => p.effective_date)).Nodup →
      get_average_key_rate_for_period s d d = get_key_rate_on_date s d := by
  intro s d hnd
  simp only [get_average_key_rate_for_period, get_key_rate_on_date]
  by_cases hemp : (List.insertionSort effLe (s.filter
      (fun p => decide (d ≤ p.effective_date ∧ p.effective_date ≤ d)))).isEmpty
  · rw [if_pos hemp]
  · rw [if_neg hemp, if_pos (sub_self d)]
    rcases hRe : List.insertionSort effLe (s.filter
        (fun p => decide (d ≤ p.effective_date ∧ p.effective_date ≤ d)))
      with _ | ⟨f, R'⟩
    · rw [hRe] at hemp; simp at hemp
    · have hfR : f ∈ List.insertionSort effLe (s.filter
          (fun p => decide (d ≤ p.effective_date ∧ p.effective_date ≤ d))) := by
        rw [hRe]; exact List.mem_cons_self f R'
      have hfF := (List.mem_insertionSort effLe).mp hfR
      obtain ⟨hfs, hfp⟩ := List.mem_filter.mp hfF
      have hfd : f.effective_date = d := by
        have := of_decide_eq_true hfp; omega
      have hfG : f ∈ s.filter (fun p => decide (p.effective_date ≤ d)) :=
        List.mem_filter.mpr ⟨hfs, decide_eq_true (by omega)⟩
      unfold get_rate_on_date
      rcases hLe : List.insertionSort effGe
          (s.filter (fun p => decide (p.effective_date ≤ d))) with _ | ⟨g, L'⟩
      · exfalso
        have hm := (List.mem_insertionSort effGe).mpr hfG
        rw [hLe] at hm
        simp at hm
      · have hsort := List.sorted_insertionSort effGe
          (s.filter (fun p => decide (p.effective_date ≤ d)))
        rw [hLe] at hsort
        have hgG : g ∈ s.filter (fun p => decide (p.effective_date ≤ d)) := by
          have hm : g ∈ List.insertionSort effGe
              (s.filter (fun p => decide (p.effective_date ≤ d))) := by
            rw [hLe]; exact List.mem_cons_self g L'
          exact (List.mem_insertionSort effGe).mp hm
        obtain ⟨hgs, hgp⟩ := List.mem_filter.mp hgG
        have hgle : g.effective_date ≤ d := of_decide_eq_true hgp
        have hfL : f ∈ g :: L' := by
          have hm := (List.mem_insertionSort effGe).mpr hfG
          rw [hLe] at hm
          exact hm
        have hgf : g = f := by
          rcases List.mem_cons.mp hfL with h1 | h1
          · exact h1.symm
          · have hge : effGe g f := List.rel_of_sorted_cons hsort f h1
            refine List.inj_on_of_nodup_map hnd hgs hfs ?_
            unfold effGe at hge
            omega
        subst hgf
        rfl

/-- Claim C9 witness: degenerate-range agreement on a concrete two-row store
with distinct effective dates, at a date strictly between the two. -/
theorem claim_C9_witness :
    get_average_key_rate_for_period [⟨-2, 0, 10⟩, ⟨8, 10, 20⟩] 5 5
      = get_key_rate_on_date [⟨-2, 0, 10⟩, ⟨8, 10, 20⟩] 5 :=
  claim_C9 [⟨-2, 0, 10⟩, ⟨8, 10, 20⟩] 5 (by decide)
